import Mathlib

/-!
# Verification of the clawpay-mcp x402 session subsystem

A shallow embedding of the session subsystem of the `clawpay-mcp` repository:
the token codec, the in-memory session store (`src/session/manager.ts`), and
the session lifecycle tools (`src/tools/session.ts`, `src/tools/x402.ts`).

Conventions of the embedding:
* JavaScript strings are Lean `String`s; character-level work happens on
  `List Char` (`String.data`).
* Unix-second timestamps and TTLs are `Int` (JavaScript numbers used as
  integers by the source).
* The global mutable `Map` keyed by `sessionId` is an association list in
  insertion order, threaded explicitly; every operation that mutates it
  returns the new store.  Because mutations of the JS global survive a later
  `throw`, fallible operations return `Except ... × Store` (state survives
  the error) rather than `Except ... (... × Store)`.
* `randomUUID()` and `Date.now()` are parameters (`freshId`, `now`).
* The injected asynchronous signer is a function `String → Except String
  String`; a rejected promise is the `Except.error` case.
* `Buffer.from(s).toString('base64url')` is modelled as UTF-8 encoding
  followed by unpadded base64url; the reverse direction is strict (returns
  `none` on invalid input) where Node is forgiving, which only widens the
  `null` case of the decoder.
* `JSON.parse(...) as SessionTokenPayload` is modelled by a parser for the
  exact canonical shape the serializer emits (the unchecked cast in the
  source gives no guarantee beyond that shape).
-/

namespace ClawPay

/-! ## Decimal digits -/

def isDigitChar (c : Char) : Bool := 48 ≤ c.toNat && c.toNat ≤ 57

def digitChar (d : Nat) : Char := Char.ofNat (48 + d)

/-- The decimal digits of `n`, most significant first (no sign, no padding). -/
def natDigits (n : Nat) : List Char :=
  if _h : n < 10 then [digitChar n]
  else natDigits (n / 10) ++ [digitChar (n % 10)]
termination_by n
decreasing_by exact Nat.div_lt_self (by omega) (by omega)

/-- Accumulate decimal digits left to right. -/
def digitsToNat (acc : Nat) : List Char → Nat
  | [] => acc
  | c :: rest => digitsToNat (acc * 10 + (c.toNat - 48)) rest

/-- Read a leading run of decimal digits; `none` when there is none.
Returns the value and the unconsumed remainder. -/
def readNat (l : List Char) : Option (Nat × List Char) :=
  let ds := l.takeWhile isDigitChar
  if ds.isEmpty then none
  else some (digitsToNat 0 ds, l.dropWhile isDigitChar)

/-- Decimal rendering of an integer, `-` sign included (`JSON.stringify` on
an integral number). -/
def jsonIntLit (i : Int) : List Char :=
  if i < 0 then '-' :: natDigits i.natAbs else natDigits i.toNat

/-- Read an optionally `-`-signed decimal integer. -/
def readInt (l : List Char) : Option (Int × List Char) :=
  match l with
  | '-' :: rest =>
    match readNat rest with
    | some (n, r) => some (-(n : Int), r)
    | none => none
  | _ =>
    match readNat l with
    | some (n, r) => some ((n : Int), r)
    | none => none

/-- `parseInt(s, 10)` of the source, restricted to the shapes that matter
here: an optional sign followed by leading decimal digits, ignoring any
trailing garbage; `none` models `NaN`. -/
def jsParseInt (s : String) : Option Int :=
  match readInt s.data with
  | some (v, _) => some v
  | none => none

/-! ## JSON string escaping (`JSON.stringify` on strings) -/

def hexDigit (d : Nat) : Char :=
  if d < 10 then digitChar d else Char.ofNat (87 + d)

def hexVal (c : Char) : Option Nat :=
  if 48 ≤ c.toNat && c.toNat ≤ 57 then some (c.toNat - 48)
  else if 97 ≤ c.toNat && c.toNat ≤ 102 then some (c.toNat - 87)
  else if 65 ≤ c.toNat && c.toNat ≤ 70 then some (c.toNat - 55)
  else none

/-- How `JSON.stringify` writes one character inside a string literal:
quote and backslash get a backslash escape, the five named control
characters their short forms, the remaining control characters `\u00xx`,
everything else (non-ASCII included) passes through literally. -/
def escChar (c : Char) : List Char :=
  if c = '"' then ['\\', '"']
  else if c = '\\' then ['\\', '\\']
  else if c.toNat = 8 then ['\\', 'b']
  else if c.toNat = 9 then ['\\', 't']
  else if c.toNat = 10 then ['\\', 'n']
  else if c.toNat = 12 then ['\\', 'f']
  else if c.toNat = 13 then ['\\', 'r']
  else if c.toNat < 32 then
    ['\\', 'u', '0', '0', hexDigit (c.toNat / 16), hexDigit (c.toNat % 16)]
  else [c]

def escapeChars : List Char → List Char
  | [] => []
  | c :: rest => escChar c ++ escapeChars rest

/-- The single-character backslash escapes accepted inside a JSON string. -/
def unescSimple (c : Char) : Option Char :=
  if c = '"' then some '"'
  else if c = '\\' then some '\\'
  else if c = '/' then some '/'
  else if c = 'b' then some (Char.ofNat 8)
  else if c = 'f' then some (Char.ofNat 12)
  else if c = 'n' then some (Char.ofNat 10)
  else if c = 'r' then some (Char.ofNat 13)
  else if c = 't' then some (Char.ofNat 9)
  else none

/-- Read the body of a JSON string literal (the opening quote already
consumed) up to its closing quote; returns the unescaped content and the
remainder after the quote. -/
def readStr : List Char → Option (List Char × List Char)
  | [] => none
  | '"' :: rest => some ([], rest)
  | '\\' :: 'u' :: h1 :: h2 :: h3 :: h4 :: rest3 =>
    match hexVal h1, hexVal h2, hexVal h3, hexVal h4 with
    | some a, some b, some c2, some d =>
      match readStr rest3 with
      | some (s, r) => some (Char.ofNat (((a * 16 + b) * 16 + c2) * 16 + d) :: s, r)
      | none => none
    | _, _, _, _ => none
  | '\\' :: e :: rest2 =>
    match unescSimple e with
    | some d =>
      match readStr rest2 with
      | some (s, r) => some (d :: s, r)
      | none => none
    | none => none
  | ['\\'] => none
  | c :: rest =>
    match readStr rest with
    | some (s, r) => some (c :: s, r)
    | none => none

/-! ## Unpadded base64url (`Buffer.toString('base64url')`) -/

def b64Char (n : Nat) : Char :=
  if n < 26 then Char.ofNat (65 + n)
  else if n < 52 then Char.ofNat (97 + (n - 26))
  else if n < 62 then Char.ofNat (48 + (n - 52))
  else if n = 62 then '-'
  else '_'

def b64Val (c : Char) : Option Nat :=
  if 65 ≤ c.toNat && c.toNat ≤ 90 then some (c.toNat - 65)
  else if 97 ≤ c.toNat && c.toNat ≤ 122 then some (c.toNat - 97 + 26)
  else if 48 ≤ c.toNat && c.toNat ≤ 57 then some (c.toNat - 48 + 52)
  else if c = '-' then some 62
  else if c = '_' then some 63
  else none

/-- Bytes to unpadded base64url text, three bytes to four characters. -/
def b64urlEncode : List Nat → List Char
  | b0 :: b1 :: b2 :: rest =>
    b64Char (b0 / 4) :: b64Char (b0 % 4 * 16 + b1 / 16) ::
      b64Char (b1 % 16 * 4 + b2 / 64) :: b64Char (b2 % 64) :: b64urlEncode rest
  | [b0, b1] => [b64Char (b0 / 4), b64Char (b0 % 4 * 16 + b1 / 16), b64Char (b1 % 16 * 4)]
  | [b0] => [b64Char (b0 / 4), b64Char (b0 % 4 * 16)]
  | [] => []

/-- Unpadded base64url text back to bytes; `none` on a character outside
the alphabet or a leftover length of one. -/
def b64urlDecode : List Char → Option (List Nat)
  | [] => some []
  | [_] => none
  | [c0, c1] =>
    match b64Val c0, b64Val c1 with
    | some s0, some s1 => some [s0 * 4 + s1 / 16]
    | _, _ => none
  | [c0, c1, c2] =>
    match b64Val c0, b64Val c1, b64Val c2 with
    | some s0, some s1, some s2 => some [s0 * 4 + s1 / 16, s1 % 16 * 16 + s2 / 4]
    | _, _, _ => none
  | c0 :: c1 :: c2 :: c3 :: rest =>
    match b64Val c0, b64Val c1, b64Val c2, b64Val c3 with
    | some s0, some s1, some s2, some s3 =>
      match b64urlDecode rest with
      | some bs =>
        some ((s0 * 4 + s1 / 16) :: (s1 % 16 * 16 + s2 / 4) :: (s2 % 4 * 64 + s3) :: bs)
      | none => none
    | _, _, _, _ => none

/-! ## UTF-8 (`Buffer.from(string)` / `buffer.toString('utf-8')`) -/

def utf8EncodeChar (c : Char) : List Nat :=
  if c.toNat < 128 then [c.toNat]
  else if c.toNat < 2048 then [192 + c.toNat / 64, 128 + c.toNat % 64]
  else if c.toNat < 65536 then
    [224 + c.toNat / 4096, 128 + c.toNat / 64 % 64, 128 + c.toNat % 64]
  else
    [240 + c.toNat / 262144, 128 + c.toNat / 4096 % 64, 128 + c.toNat / 64 % 64,
      128 + c.toNat % 64]

def utf8Encode : List Char → List Nat
  | [] => []
  | c :: rest => utf8EncodeChar c ++ utf8Encode rest

def isCont (b : Nat) : Bool := 128 ≤ b && b < 192

/-- Decode one UTF-8 sequence from a lead byte and the bytes after it:
the code point and the remaining bytes.  Rejects stray continuation
bytes, truncated and overlong sequences, surrogates and out-of-range
code points. -/
def utf8DecodeOne (b : Nat) (rest : List Nat) : Option (Nat × List Nat) :=
  if b < 128 then some (b, rest)
  else if b < 192 then none
  else if b < 224 then
    match rest with
    | b1 :: rest1 =>
      if isCont b1 then
        let n := (b - 192) * 64 + (b1 - 128)
        if n < 128 then none else some (n, rest1)
      else none
    | [] => none
  else if b < 240 then
    match rest with
    | b1 :: b2 :: rest2 =>
      if isCont b1 && isCont b2 then
        let n := (b - 224) * 4096 + (b1 - 128) * 64 + (b2 - 128)
        if n < 2048 then none
        else if 55296 ≤ n && n < 57344 then none
        else some (n, rest2)
      else none
    | _ => none
  else if b < 248 then
    match rest with
    | b1 :: b2 :: b3 :: rest3 =>
      if isCont b1 && isCont b2 && isCont b3 then
        let n := (b - 240) * 262144 + (b1 - 128) * 4096 + (b2 - 128) * 64 + (b3 - 128)
        if n < 65536 then none
        else if 1114112 ≤ n then none
        else some (n, rest3)
      else none
    | _ => none
  else none

theorem utf8DecodeOne_length {b : Nat} {rest : List Nat} {n : Nat} {r : List Nat}
    (h : utf8DecodeOne b rest = some (n, r)) : r.length ≤ rest.length := by
  unfold utf8DecodeOne at h
  repeat' split at h
  all_goals simp_all
  all_goals omega

/-- Strict UTF-8 decoding of a whole byte list. -/
def utf8Decode (l : List Nat) : Option (List Char) :=
  match l with
  | [] => some []
  | b :: rest =>
    match h : utf8DecodeOne b rest with
    | some (n, r) =>
      match utf8Decode r with
      | some cs => some (Char.ofNat n :: cs)
      | none => none
    | none => none
termination_by l.length
decreasing_by
  simp only [List.length_cons]
  exact Nat.lt_succ_of_le (utf8DecodeOne_length h)

/-! ## Splitting a token at its last dot (`token.lastIndexOf('.')`) -/

/-- Split a character list at its *last* `'.'`: returns the part before it
and the part after it, the latter dot-free; `none` when no dot occurs. -/
def splitLastDot : List Char → Option (List Char × List Char)
  | [] => none
  | c :: rest =>
    match splitLastDot rest with
    | some (a, b) => some (c :: a, b)
    | none => if c = '.' then some ([], rest) else none

/-! ## Data model (`src/session/types.ts`) -/

/-- `'prefix' | 'exact'` — the constructor for `'prefix'` is named `pfx`
because the source's name is a Lean keyword. -/
inductive Scope
  | pfx
  | exact
deriving DecidableEq, Repr

/-- `SessionTokenPayload` — the canonical, signed claim. -/
structure SessionTokenPayload where
  version : String
  sessionId : String
  walletAddress : String
  endpoint : String
  scope : Scope
  createdAt : Int
  expiresAt : Int
  paymentTxHash : String
  paymentAmount : String
deriving DecidableEq, Repr

/-- `SessionRecord` — one paid access grant as stored. -/
structure SessionRecord where
  sessionId : String
  endpoint : String
  scope : Scope
  walletAddress : String
  createdAt : Int
  expiresAt : Int
  paymentTxHash : String
  paymentAmount : String
  paymentToken : String
  paymentRecipient : String
  sessionToken : String
  signature : String
  label : Option String
  callCount : Nat
  lastUsedAt : Int
deriving DecidableEq, Repr

/-- `CreateSessionOptions`; `signMessage` returns `Except.error` for a
rejected promise. -/
structure CreateSessionOptions where
  endpoint : String
  scope : Option Scope
  ttlSeconds : Option Int
  label : Option String
  paymentTxHash : String
  paymentAmount : Int
  paymentToken : String
  paymentRecipient : String
  walletAddress : String
  signMessage : String → Except String String

/-- `SessionLookupResult`. -/
inductive SessionLookupResult
  | notFound
  | found (session : SessionRecord) (expired : Bool)
deriving DecidableEq, Repr

/-- The in-memory `Map<string, SessionRecord>`, in insertion order. -/
abbrev Store := List SessionRecord

/-- `url.startsWith(pre)` on JavaScript strings. -/
def jsStartsWith (s pre : String) : Bool := pre.data.isPrefixOf s.data

/-! ## Token codec (`src/session/manager.ts` lines 83-91 and 214-261) -/

/-- The literal key fragments of the canonical JSON, named so that proofs
can treat them as atoms. -/
def kCreatedAt : List Char := "\x7b\"createdAt\":".data
def kEndpoint : List Char := ",\"endpoint\":\"".data
def kExpiresAt : List Char := ",\"expiresAt\":".data
def kPayAmt : List Char := ",\"paymentAmount\":\"".data
def kPayTx : List Char := ",\"paymentTxHash\":\"".data
def kScope : List Char := ",\"scope\":\"".data
def kSessionId : List Char := ",\"sessionId\":\"".data
def kVersion : List Char := ",\"version\":\"".data
def kWallet : List Char := ",\"walletAddress\":\"".data
def kPrefixVal : List Char := "prefix".data
def kExactVal : List Char := "exact".data

/-- The JSON string value a scope serialises to. -/
def Scope.str : Scope → List Char
  | .pfx => kPrefixVal
  | .exact => kExactVal

/-- `canonicalise` — deterministic canonical JSON of the payload, keys in
alphabetical order, exactly the text `JSON.stringify` produces for the
key-sorted object (strings escaped, integers in decimal).  The grouping of
the concatenation is chosen to mirror the parse order; the list itself is
the flat canonical text. -/
def canonicalise (p : SessionTokenPayload) : List Char :=
  kCreatedAt ++
  (jsonIntLit p.createdAt ++
  (kEndpoint ++
  (escapeChars p.endpoint.data ++
  ('"' ::
  (kExpiresAt ++
  (jsonIntLit p.expiresAt ++
  (kPayAmt ++
  (escapeChars p.paymentAmount.data ++
  ('"' ::
  (kPayTx ++
  (escapeChars p.paymentTxHash.data ++
  ('"' ::
  (kScope ++
  (Scope.str p.scope ++
  ('"' ::
  (kSessionId ++
  (escapeChars p.sessionId.data ++
  ('"' ::
  (kVersion ++
  (escapeChars p.version.data ++
  ('"' ::
  (kWallet ++
  (escapeChars p.walletAddress.data ++
  ('"' :: ['}']))))))))))))))))))))))))

/-- Expect a literal character sequence at the head of the input. -/
def expectLit : List Char → List Char → Option (List Char)
  | [], l => some l
  | e :: es, c :: l => if c = e then expectLit es l else none
  | _ :: _, [] => none

/-- Sequencing for parsing steps: feed the parsed value and the remaining
input to the continuation; propagate failure. -/
def pstep {A B : Type} : Option (A × List Char) → (A → List Char → Option B) → Option B
  | some (a, l), f => f a l
  | none, _ => none

/-- Expect a literal key fragment, then read a JSON string body. -/
def keyStr (key : List Char) (l : List Char) : Option (List Char × List Char) :=
  match expectLit key l with
  | some l1 => readStr l1
  | none => none

/-- Expect a literal key fragment, then read an integer. -/
def keyInt (key : List Char) (l : List Char) : Option (Int × List Char) :=
  match expectLit key l with
  | some l1 => readInt l1
  | none => none

/-- Payload parsing, tail: `sessionId`, `version`, `walletAddress` and the
closing `"}` with nothing after it. -/
def parsePayloadTail (scope : Scope) (createdAt expiresAt : Int)
    (endpoint paymentAmount paymentTxHash : List Char) (l : List Char) :
    Option SessionTokenPayload :=
  pstep (keyStr kSessionId l) fun sessionId l =>
  pstep (keyStr kVersion l) fun version l =>
  pstep (keyStr kWallet l) fun walletAddress l =>
  if l = ['}'] then
    some { version := String.mk version, sessionId := String.mk sessionId,
           walletAddress := String.mk walletAddress, endpoint := String.mk endpoint,
           scope, createdAt, expiresAt,
           paymentTxHash := String.mk paymentTxHash,
           paymentAmount := String.mk paymentAmount }
  else none

/-- Payload parsing, middle: the two payment strings and the scope. -/
def parsePayloadMid (createdAt expiresAt : Int) (endpoint : List Char)
    (l : List Char) : Option SessionTokenPayload :=
  pstep (keyStr kPayAmt l) fun paymentAmount l =>
  pstep (keyStr kPayTx l) fun paymentTxHash l =>
  pstep (keyStr kScope l) fun scopeStr l =>
  if scopeStr = kPrefixVal then
    parsePayloadTail .pfx createdAt expiresAt endpoint paymentAmount paymentTxHash l
  else if scopeStr = kExactVal then
    parsePayloadTail .exact createdAt expiresAt endpoint paymentAmount paymentTxHash l
  else none

/-- Parse the exact canonical JSON shape `canonicalise` emits back into a
payload.  The source performs `JSON.parse(...) as SessionTokenPayload`, an
unchecked cast; this parser is the shape that cast promises. -/
def parsePayloadChars (l : List Char) : Option SessionTokenPayload :=
  pstep (keyInt kCreatedAt l) fun createdAt l =>
  pstep (keyStr kEndpoint l) fun endpoint l =>
  pstep (keyInt kExpiresAt l) fun expiresAt l =>
  parsePayloadMid createdAt expiresAt endpoint l

/-- Lines 84-91 of `manager.ts`: base64url of the UTF-8 bytes of the
canonical payload, a dot, then the signature string. -/
def encodeSessionToken (p : SessionTokenPayload) (signature : String) : String :=
  String.mk (b64urlEncode (utf8Encode (canonicalise p)) ++ '.' :: signature.data)

/-- Sequencing for plain optional steps. -/
def ostep {A B : Type} : Option A → (A → Option B) → Option B
  | some a, f => f a
  | none, _ => none

/-- The payload side of decoding: base64url to bytes, bytes to text, text
to payload; `none` at whichever stage fails. -/
def decodePipeline (payloadB64 : List Char) : Option SessionTokenPayload :=
  ostep (b64urlDecode payloadB64) fun bytes =>
  ostep (utf8Decode bytes) fun chars =>
  parsePayloadChars chars

/-- `decodeSessionToken` — split at the last `.`, base64url-decode and
parse the front segment; `null` (here `none`) on any failure. -/
def decodeSessionToken (token : String) : Option (SessionTokenPayload × String) :=
  pstep (splitLastDot token.data) fun payloadB64 sig =>
  ostep (decodePipeline payloadB64) fun p =>
  some (p, String.mk sig)

/-! ## Session store (`src/session/manager.ts`) -/

/-- Default session TTL in seconds (1 hour). -/
def DEFAULT_TTL_SECONDS : Int := 3600

/-- `parseTtlFromEnv` — the `SESSION_TTL_SECONDS` environment variable
(`none` = unset), falling back to the default when missing, empty,
unparsable or non-positive, and capped at 30 days. -/
def parseTtlFromEnv (raw : Option String) : Int :=
  match raw with
  | none => DEFAULT_TTL_SECONDS
  | some s =>
    if s.isEmpty then DEFAULT_TTL_SECONDS
    else
      match jsParseInt s with
      | none => DEFAULT_TTL_SECONDS
      | some parsed =>
        if parsed ≤ 0 then DEFAULT_TTL_SECONDS
        else min parsed (86400 * 30)

/-- `pruneExpired` — drop every record with `expiresAt <= now`. -/
def pruneExpired (store : Store) (now : Int) : Store :=
  store.filter (fun s => now < s.expiresAt)

/-- The token payload `createSession` builds before signing. -/
def buildPayload (opts : CreateSessionOptions) (freshId : String) (now : Int)
    (env : Option String) : SessionTokenPayload :=
  { version := "clawpay/1.1"
    sessionId := freshId
    walletAddress := opts.walletAddress
    endpoint := opts.endpoint
    scope := opts.scope.getD .pfx
    createdAt := now
    expiresAt := now + (opts.ttlSeconds.getD (parseTtlFromEnv env))
    paymentTxHash := opts.paymentTxHash
    paymentAmount := toString opts.paymentAmount }

/-- `createSession` — sign the canonical payload, then insert the record
and opportunistically prune.  The store is returned alongside the result
in either case: a signing failure propagates before any store mutation. -/
def createSession (opts : CreateSessionOptions) (freshId : String) (now : Int)
    (env : Option String) (store : Store) : Except String SessionRecord × Store :=
  match opts.signMessage (String.mk (canonicalise (buildPayload opts freshId now env))) with
  | .error e => (.error e, store)
  | .ok signature =>
    let record : SessionRecord :=
      { sessionId := freshId
        endpoint := opts.endpoint
        scope := opts.scope.getD .pfx
        walletAddress := opts.walletAddress
        createdAt := now
        expiresAt := (buildPayload opts freshId now env).expiresAt
        paymentTxHash := opts.paymentTxHash
        paymentAmount := toString opts.paymentAmount
        paymentToken := opts.paymentToken
        paymentRecipient := opts.paymentRecipient
        sessionToken := encodeSessionToken (buildPayload opts freshId now env) signature
        signature := signature
        label := opts.label
        callCount := 0
        lastUsedAt := now }
    (.ok record, pruneExpired (store ++ [record]) now)

/-- `lookupSession` — pure read; `expired` is `now >= expiresAt`. -/
def lookupSession (store : Store) (sessionId : String) (now : Int) : SessionLookupResult :=
  match store.find? (fun s => s.sessionId = sessionId) with
  | none => .notFound
  | some s => .found s (decide (now ≥ s.expiresAt))

/-- `recordSessionCall` — bump `callCount` and refresh `lastUsedAt` on the
record with this id; silently a no-op when absent. -/
def recordSessionCall (store : Store) (sessionId : String) (now : Int) : Store :=
  store.map (fun s =>
    if s.sessionId = sessionId then
      { s with callCount := s.callCount + 1, lastUsedAt := now }
    else s)

/-- `endSession` — force `expiresAt` to `0`; reports whether the id was
present. -/
def endSession (store : Store) (sessionId : String) : Bool × Store :=
  if store.any (fun s => s.sessionId = sessionId) then
    (true, store.map (fun s => if s.sessionId = sessionId then { s with expiresAt := 0 } else s))
  else (false, store)

/-- `listActiveSessions` — prune, then return the records with
`expiresAt > now`.  The pruned store is returned too (the source mutates
the global map). -/
def listActiveSessions (store : Store) (now : Int) : List SessionRecord × Store :=
  let store := pruneExpired store now
  (store.filter (fun s => s.expiresAt > now), store)

/-- `findSessionForUrl` — among active records, first the exact-endpoint
`exact`-scope match, otherwise the first `prefix`-scope record whose
endpoint is a plain string prefix of the URL. -/
def findSessionForUrl (store : Store) (url : String) (now : Int) : Option SessionRecord :=
  match (store.filter (fun s => s.expiresAt > now)).find?
      (fun s => s.scope = Scope.exact && s.endpoint = url) with
  | some exact => some exact
  | none =>
    (store.filter (fun s => s.expiresAt > now)).find?
      (fun s => s.scope = Scope.pfx && jsStartsWith url s.endpoint)

/-- The three session headers of `buildSessionHeaders`. -/
structure SessionHeaders where
  xSessionToken : String
  xSessionWallet : String
  paymentSession : String
deriving DecidableEq, Repr

def buildSessionHeaders (session : SessionRecord) : SessionHeaders :=
  { xSessionToken := session.sessionToken
    xSessionWallet := session.walletAddress
    paymentSession := session.sessionId }

/-! ## Session lifecycle tools (`src/tools/session.ts`, `src/tools/x402.ts`)

The outbound HTTP call is an oracle: the handler receives the response the
transport would produce.  A branch that never performs the call produces a
result that does not depend on that oracle, which is how "no HTTP request
is attempted" is stated. -/

/-- A completed HTTP response (status code and body text). -/
structure HttpResp where
  status : Nat
  body : String
deriving DecidableEq, Repr

/-- `isUrlCoveredBySession` (`session.ts` lines 749-760). -/
def isUrlCoveredBySession (url : String) (endpoint : String) (scope : Scope) : Bool :=
  match scope with
  | .exact => url = endpoint
  | .pfx =>
    let base := if endpoint.data.getLast? = some '/' then endpoint
                else String.mk (endpoint.data ++ ['/'])
    url = endpoint || jsStartsWith url base || jsStartsWith url (String.mk (endpoint.data ++ ['?']))

/-- Arguments of `x402_session_fetch` that the control flow inspects. -/
structure FetchInput where
  sessionId : String
  url : String
deriving DecidableEq, Repr

/-- Result classification of `handleX402SessionFetch`. -/
inductive FetchOutcome
  | notFound
  | expired
  | scopeMismatch
  | serverRejectedSession (body : String)
  | ok (status : Nat) (body : String)
deriving DecidableEq, Repr

/-- `handleX402SessionFetch` (`session.ts` lines 383-527): session exists →
not expired → URL covered → plain fetch with session headers →
`recordSessionCall` → only then the 402 check. -/
def handleX402SessionFetch (input : FetchInput) (now : Int) (resp : HttpResp)
    (store : Store) : FetchOutcome × Store :=
  match lookupSession store input.sessionId now with
  | .notFound => (.notFound, store)
  | .found session expired =>
    if expired then (.expired, store)
    else if ¬ isUrlCoveredBySession input.url session.endpoint session.scope then
      (.scopeMismatch, store)
    else
      let store := recordSessionCall store input.sessionId now
      if resp.status = 402 then (.serverRejectedSession resp.body, store)
      else (.ok resp.status resp.body, store)

/-- Arguments of `x402_pay` that the session-routing logic inspects. -/
structure PayInput where
  url : String
  skipSessionCheck : Bool
deriving DecidableEq, Repr

/-- Result classification of `handleX402Pay`: either the session path
served the response, or control reached the standard x402 payment flow
(whose internals are out of scope and leave the session store alone). -/
inductive PayOutcome
  | sessionUsed (status : Nat) (body : String)
  | paidFlow
deriving DecidableEq, Repr

/-- `handleX402Pay` (`x402.ts` lines 122-191): auto-session detection, and
fall-through to the payment flow when the server answers 402 despite the
session headers — in that branch `recordSessionCall` is *not* executed. -/
def handleX402Pay (input : PayInput) (now : Int) (resp : HttpResp)
    (store : Store) : PayOutcome × Store :=
  if input.skipSessionCheck then (.paidFlow, store)
  else
    match findSessionForUrl store input.url now with
    | none => (.paidFlow, store)
    | some activeSession =>
      if resp.status ≠ 402 then
        (.sessionUsed resp.status resp.body, recordSessionCall store activeSession.sessionId now)
      else (.paidFlow, store)

/-- Arguments of `x402_session_start` the control flow inspects. -/
structure StartInput where
  endpoint : String
  scope : Option Scope
  ttlSeconds : Option Int
  label : Option String
deriving Repr

/-- Proof-of-payment captured by the `onPaymentComplete` callback. -/
structure PaymentInfo where
  amount : Int
  txHash : String
  recipient : String
  token : String
deriving DecidableEq, Repr

/-- Result classification of `handleX402SessionStart`. -/
inductive StartOutcome
  | noSessionNeeded (status : Nat) (body : String)
  | established (record : SessionRecord)
  | failed (e : String)
deriving DecidableEq, Repr

/-- `handleX402SessionStart` (`session.ts` lines 153-301): one payment
attempt through the x402 client; when no payment fired (`payment = none`)
no session is created and the reply says none is needed; otherwise the
payment proof is handed to `createSession`. -/
def handleX402SessionStart (input : StartInput) (walletAddress : String)
    (signMessage : String → Except String String) (freshId : String) (now : Int)
    (env : Option String) (payment : Option PaymentInfo) (resp : HttpResp)
    (store : Store) : StartOutcome × Store :=
  match payment with
  | none => (.noSessionNeeded resp.status resp.body, store)
  | some pay =>
    let opts : CreateSessionOptions :=
      { endpoint := input.endpoint
        scope := some (input.scope.getD .pfx)
        ttlSeconds := input.ttlSeconds
        label := input.label
        paymentTxHash := pay.txHash
        paymentAmount := pay.amount
        paymentToken := pay.token
        paymentRecipient := pay.recipient
        walletAddress := walletAddress
        signMessage := signMessage }
    match createSession opts freshId now env store with
    | (.error e, store) => (.failed e, store)
    | (.ok record, store) => (.established record, store)

/-- Modelled from the spec: `clamp(ttl, 60, 2592000)` — the TTL clamping
§3 and §8 of the specification ascribe to `Create`.  Stated separately so
it can be compared against what `createSession` actually computes. -/
def clampTtlSpec (ttl : Int) : Int := max 60 (min ttl 2592000)

/-! ## Character facts -/

theorem toNat_ofNat_valid (n : Nat) (h : n.isValidChar) : (Char.ofNat n).toNat = n := by
  unfold Char.ofNat Char.toNat Char.ofNatAux
  rw [dif_pos h]
  exact BitVec.toNat_ofNatLt _ _

theorem toNat_ofNat_small (n : Nat) (h : n < 55296) : (Char.ofNat n).toNat = n :=
  toNat_ofNat_valid n (Or.inl h)

theorem char_eq_of_toNat_eq {a b : Char} (h : a.toNat = b.toNat) : a = b := by
  have hb := Char.ofNat_toNat b
  rw [← h, Char.ofNat_toNat] at hb
  exact hb

theorem char_toNat_valid (c : Char) :
    c.toNat < 55296 ∨ (57344 ≤ c.toNat ∧ c.toNat < 1114112) := by
  have h := c.valid
  unfold UInt32.isValidChar Nat.isValidChar at h
  unfold Char.toNat
  rcases h with h | h
  · exact Or.inl h
  · exact Or.inr (by omega)

/-! ## Decimal digit lemmas -/

theorem digitChar_toNat {d : Nat} (h : d < 10) : (digitChar d).toNat = 48 + d :=
  toNat_ofNat_small _ (by omega)

theorem isDigitChar_digitChar {d : Nat} (h : d < 10) : isDigitChar (digitChar d) = true := by
  unfold isDigitChar
  rw [digitChar_toNat h]
  simp only [Bool.and_eq_true, decide_eq_true_eq]
  omega

theorem natDigits_ne_nil (n : Nat) : natDigits n ≠ [] := by
  unfold natDigits
  split
  · simp
  · simp

theorem mem_natDigits (n : Nat) : ∀ c ∈ natDigits n, ∃ d, d < 10 ∧ c = digitChar d := by
  induction n using Nat.strong_induction_on with
  | _ n ih =>
    unfold natDigits
    split
    · next h =>
      intro c hc
      simp only [List.mem_singleton] at hc
      exact ⟨n, h, hc⟩
    · next h =>
      intro c hc
      rcases List.mem_append.1 hc with hc | hc
      · exact ih (n / 10) (Nat.div_lt_self (by omega) (by omega)) c hc
      · simp only [List.mem_singleton] at hc
        exact ⟨n % 10, Nat.mod_lt _ (by omega), hc⟩

theorem isDigit_of_mem_natDigits {n : Nat} {c : Char} (h : c ∈ natDigits n) :
    isDigitChar c = true := by
  obtain ⟨d, hd, rfl⟩ := mem_natDigits n c h
  exact isDigitChar_digitChar hd

theorem digitsToNat_append (acc : Nat) (xs ys : List Char) :
    digitsToNat acc (xs ++ ys) = digitsToNat (digitsToNat acc xs) ys := by
  induction xs generalizing acc with
  | nil => rfl
  | cons c t ih => exact ih (acc * 10 + (c.toNat - 48))

theorem digitsToNat_natDigits (n : Nat) : digitsToNat 0 (natDigits n) = n := by
  induction n using Nat.strong_induction_on with
  | _ n ih =>
    unfold natDigits
    split
    · next h =>
      show digitsToNat (0 * 10 + ((digitChar n).toNat - 48)) [] = n
      rw [digitChar_toNat h]
      show 0 * 10 + (48 + n - 48) = n
      omega
    · next h =>
      rw [digitsToNat_append, ih (n / 10) (Nat.div_lt_self (by omega) (by omega))]
      show digitsToNat (n / 10 * 10 + ((digitChar (n % 10)).toNat - 48)) [] = n
      rw [digitChar_toNat (show n % 10 < 10 from Nat.mod_lt _ (by omega))]
      show n / 10 * 10 + (48 + n % 10 - 48) = n
      omega

/-- A head-of-remainder condition: the next character, if any, would stop a
digit scan. -/
def stopsDigits (l : List Char) : Prop :=
  ∀ c, l.head? = some c → isDigitChar c = false

theorem takeWhile_all_append {p : Char → Bool} {xs ys : List Char}
    (hxs : ∀ x ∈ xs, p x = true) (hys : ∀ c, ys.head? = some c → p c = false) :
    (xs ++ ys).takeWhile p = xs ∧ (xs ++ ys).dropWhile p = ys := by
  induction xs with
  | nil =>
    simp only [List.nil_append]
    cases ys with
    | nil => simp
    | cons y t =>
      have := hys y rfl
      constructor
      · simp [List.takeWhile, this]
      · simp [List.dropWhile, this]
  | cons x t ih =>
    have hx : p x = true := hxs x (by simp)
    have ht : ∀ c ∈ t, p c = true := fun c hc => hxs c (by simp [hc])
    obtain ⟨h1, h2⟩ := ih ht
    constructor
    · simp [List.takeWhile, hx, h1]
    · simp [List.dropWhile, hx, h2]

theorem readNat_natDigits (n : Nat) (rest : List Char) (hrest : stopsDigits rest) :
    readNat (natDigits n ++ rest) = some (n, rest) := by
  obtain ⟨h1, h2⟩ := takeWhile_all_append
    (fun c hc => isDigit_of_mem_natDigits hc) hrest
  unfold readNat
  rw [h1, h2]
  have hne : (natDigits n).isEmpty = false := by
    cases h : natDigits n with
    | nil => exact absurd h (natDigits_ne_nil n)
    | cons a t => rfl
  simp only [hne, digitsToNat_natDigits, if_false]
  rfl

theorem natDigits_head_digit (n : Nat) :
    ∀ c, (natDigits n).head? = some c → isDigitChar c = true := by
  intro c hc
  apply isDigit_of_mem_natDigits (n := n)
  cases h : natDigits n with
  | nil => exact absurd h (natDigits_ne_nil n)
  | cons a t =>
    rw [h] at hc
    simp at hc
    simp [h, hc]

theorem readInt_cons_dash (l : List Char) :
    readInt ('-' :: l) = match readNat l with
      | some (n, r) => some (-(n : Int), r)
      | none => none := rfl

theorem readInt_not_dash {c : Char} (hc : c ≠ '-') (l : List Char) :
    readInt (c :: l) = match readNat (c :: l) with
      | some (n, r) => some ((n : Int), r)
      | none => none := by
  unfold readInt
  split
  · next heq =>
    injection heq with h1 _
    exact absurd h1 hc
  · rfl

theorem readInt_jsonIntLit (i : Int) (rest : List Char) (hrest : stopsDigits rest) :
    readInt (jsonIntLit i ++ rest) = some (i, rest) := by
  unfold jsonIntLit
  split
  · next hneg =>
    rw [List.cons_append, readInt_cons_dash, readNat_natDigits _ _ hrest]
    show some (-(i.natAbs : Int), rest) = some (i, rest)
    have h2 : -(i.natAbs : Int) = i := by omega
    rw [h2]
  · next hpos =>
    have hhead : ∃ c t, natDigits i.toNat = c :: t ∧ isDigitChar c = true := by
      cases h : natDigits i.toNat with
      | nil => exact absurd h (natDigits_ne_nil _)
      | cons c t => exact ⟨c, t, rfl, natDigits_head_digit i.toNat c (by simp [h])⟩
    obtain ⟨c, t, hct, hdig⟩ := hhead
    have hcne : c ≠ '-' := by
      intro he
      rw [he] at hdig
      simp [isDigitChar] at hdig
    rw [hct, List.cons_append, readInt_not_dash hcne, ← List.cons_append, ← hct,
      readNat_natDigits _ _ hrest]
    show some ((i.toNat : Int), rest) = some (i, rest)
    have h2 : (i.toNat : Int) = i := by omega
    rw [h2]

/-! ## JSON string literal round-trip -/

theorem expectLit_append (k rest : List Char) : expectLit k (k ++ rest) = some rest := by
  induction k with
  | nil => rfl
  | cons c t ih => simp [expectLit, ih]

theorem hexVal_hexDigit : ∀ d, d < 16 → hexVal (hexDigit d) = some d := by decide

theorem readStr_quote (rest : List Char) : readStr ('"' :: rest) = some ([], rest) := rfl

theorem readStr_plain {c : Char} (h1 : c ≠ '"') (h2 : c ≠ '\\') (l : List Char) :
    readStr (c :: l) = match readStr l with
      | some (s, r) => some (c :: s, r)
      | none => none :=
  readStr.eq_6 c l (fun h => h1 h) (fun _ _ _ _ _ hb _ => h2 hb)
    (fun _ _ hb _ => h2 hb) (fun hb _ => h2 hb)

theorem readStr_simple_escape {e d : Char} (he : e ≠ 'u') (hd : unescSimple e = some d)
    (l : List Char) :
    readStr ('\\' :: e :: l) = match readStr l with
      | some (s, r) => some (d :: s, r)
      | none => none := by
  rw [readStr.eq_4 e l (fun _ _ _ _ _ hu _ => he hu), hd]

theorem readStr_u_escape {h1 h2 h3 h4 : Char} {a b c2 d : Nat}
    (ha : hexVal h1 = some a) (hb : hexVal h2 = some b)
    (hc : hexVal h3 = some c2) (hd : hexVal h4 = some d) (l : List Char) :
    readStr ('\\' :: 'u' :: h1 :: h2 :: h3 :: h4 :: l) = match readStr l with
      | some (s, r) => some (Char.ofNat (((a * 16 + b) * 16 + c2) * 16 + d) :: s, r)
      | none => none := by
  rw [readStr.eq_3, ha, hb, hc, hd]

theorem readStr_escape (s rest : List Char) :
    readStr (escapeChars s ++ '"' :: rest) = some (s, rest) := by
  induction s with
  | nil => exact readStr_quote rest
  | cons c t ih =>
    show readStr (escChar c ++ escapeChars t ++ '"' :: rest) = some (c :: t, rest)
    unfold escChar
    split_ifs with hq hbs h8 h9 h10 h12 h13 hctl
    · simp only [List.cons_append, List.nil_append]
      rw [readStr_simple_escape (by decide) (by decide : unescSimple '"' = some '"'), ih, hq]
    · simp only [List.cons_append, List.nil_append]
      rw [readStr_simple_escape (by decide) (by decide : unescSimple '\\' = some '\\'),
        ih, hbs]
    · have hc : c = Char.ofNat 8 :=
        char_eq_of_toNat_eq (by rw [h8, toNat_ofNat_small 8 (by omega)])
      simp only [List.cons_append, List.nil_append]
      rw [readStr_simple_escape (by decide) (by decide : unescSimple 'b' = some (Char.ofNat 8)),
        ih, ← hc]
    · have hc : c = Char.ofNat 9 :=
        char_eq_of_toNat_eq (by rw [h9, toNat_ofNat_small 9 (by omega)])
      simp only [List.cons_append, List.nil_append]
      rw [readStr_simple_escape (by decide) (by decide : unescSimple 't' = some (Char.ofNat 9)),
        ih, ← hc]
    · have hc : c = Char.ofNat 10 :=
        char_eq_of_toNat_eq (by rw [h10, toNat_ofNat_small 10 (by omega)])
      simp only [List.cons_append, List.nil_append]
      rw [readStr_simple_escape (by decide) (by decide : unescSimple 'n' = some (Char.ofNat 10)),
        ih, ← hc]
    · have hc : c = Char.ofNat 12 :=
        char_eq_of_toNat_eq (by rw [h12, toNat_ofNat_small 12 (by omega)])
      simp only [List.cons_append, List.nil_append]
      rw [readStr_simple_escape (by decide) (by decide : unescSimple 'f' = some (Char.ofNat 12)),
        ih, ← hc]
    · have hc : c = Char.ofNat 13 :=
        char_eq_of_toNat_eq (by rw [h13, toNat_ofNat_small 13 (by omega)])
      simp only [List.cons_append, List.nil_append]
      rw [readStr_simple_escape (by decide) (by decide : unescSimple 'r' = some (Char.ofNat 13)),
        ih, ← hc]
    · have hlo : c.toNat % 16 < 16 := Nat.mod_lt _ (by omega)
      have hhi : c.toNat / 16 < 16 := by omega
      have hval : ((((0 : Nat) * 16 + 0) * 16 + c.toNat / 16) * 16 + c.toNat % 16) = c.toNat := by
        omega
      simp only [List.cons_append, List.nil_append]
      rw [readStr_u_escape (by decide : hexVal '0' = some 0) (by decide : hexVal '0' = some 0)
          (hexVal_hexDigit _ hhi) (hexVal_hexDigit _ hlo), ih, hval, Char.ofNat_toNat]
    · simp only [List.cons_append, List.nil_append]
      rw [readStr_plain hq hbs, ih]

/-! ## base64url round-trip -/

theorem b64Val_b64Char : ∀ n, n < 64 → b64Val (b64Char n) = some n := by decide

theorem b64Char_ne_dot : ∀ n, n < 64 → b64Char n ≠ '.' := by decide

theorem b64urlDecode_encode (bytes : List Nat) (hb : ∀ b ∈ bytes, b < 256) :
    b64urlDecode (b64urlEncode bytes) = some bytes := by
  match bytes with
  | [] => rfl
  | [b0] =>
    have h0 : b0 < 256 := hb b0 (by simp)
    show b64urlDecode [b64Char (b0 / 4), b64Char (b0 % 4 * 16)] = some [b0]
    rw [b64urlDecode]
    rw [b64Val_b64Char _ (by omega), b64Val_b64Char _ (by omega)]
    show some [b0 / 4 * 4 + b0 % 4 * 16 / 16] = some [b0]
    congr 2
    omega
  | [b0, b1] =>
    have h0 : b0 < 256 := hb b0 (by simp)
    have h1 : b1 < 256 := hb b1 (by simp)
    show b64urlDecode [b64Char (b0 / 4), b64Char (b0 % 4 * 16 + b1 / 16),
      b64Char (b1 % 16 * 4)] = some [b0, b1]
    rw [b64urlDecode]
    rw [b64Val_b64Char _ (by omega), b64Val_b64Char _ (by omega),
      b64Val_b64Char _ (by omega)]
    show some [b0 / 4 * 4 + (b0 % 4 * 16 + b1 / 16) / 16,
      (b0 % 4 * 16 + b1 / 16) % 16 * 16 + b1 % 16 * 4 / 4] = some [b0, b1]
    congr 2
    · omega
    · congr 1
      omega
  | b0 :: b1 :: b2 :: (rest : List Nat) =>
    have h0 : b0 < 256 := hb b0 (by simp)
    have h1 : b1 < 256 := hb b1 (by simp)
    have h2 : b2 < 256 := hb b2 (by simp)
    have hrest : ∀ b ∈ rest, b < 256 := fun b hbm => hb b (by simp [hbm])
    have hrec : b64urlDecode (b64urlEncode rest) = some rest :=
      b64urlDecode_encode rest hrest
    show b64urlDecode (b64Char (b0 / 4) :: b64Char (b0 % 4 * 16 + b1 / 16) ::
      b64Char (b1 % 16 * 4 + b2 / 64) :: b64Char (b2 % 64) :: b64urlEncode rest) =
      some (b0 :: b1 :: b2 :: rest)
    rw [b64urlDecode]
    rw [b64Val_b64Char _ (by omega), b64Val_b64Char _ (by omega),
      b64Val_b64Char _ (by omega), b64Val_b64Char _ (by omega), hrec]
    show some (((b0 / 4) * 4 + (b0 % 4 * 16 + b1 / 16) / 16) ::
      ((b0 % 4 * 16 + b1 / 16) % 16 * 16 + (b1 % 16 * 4 + b2 / 64) / 4) ::
      ((b1 % 16 * 4 + b2 / 64) % 4 * 64 + b2 % 64) :: rest) =
      some (b0 :: b1 :: b2 :: rest)
    congr 2
    · omega
    · congr 1
      · omega
      · congr 1
        omega
termination_by bytes.length

theorem b64urlEncode_no_dot (bytes : List Nat) (hb : ∀ b ∈ bytes, b < 256) :
    '.' ∉ b64urlEncode bytes := by
  match bytes with
  | [] =>
    intro h
    simp [b64urlEncode] at h
  | [b0] =>
    have h0 : b0 < 256 := hb b0 (by simp)
    intro h
    simp only [b64urlEncode, List.mem_cons, List.not_mem_nil, or_false] at h
    rcases h with h | h
    · exact b64Char_ne_dot _ (by omega) h.symm
    · exact b64Char_ne_dot _ (by omega) h.symm
  | [b0, b1] =>
    have h0 : b0 < 256 := hb b0 (by simp)
    have h1 : b1 < 256 := hb b1 (by simp)
    intro h
    simp only [b64urlEncode, List.mem_cons, List.not_mem_nil, or_false] at h
    rcases h with h | h | h
    · exact b64Char_ne_dot _ (by omega) h.symm
    · exact b64Char_ne_dot _ (by omega) h.symm
    · exact b64Char_ne_dot _ (by omega) h.symm
  | b0 :: b1 :: b2 :: (rest : List Nat) =>
    have h0 : b0 < 256 := hb b0 (by simp)
    have h1 : b1 < 256 := hb b1 (by simp)
    have h2 : b2 < 256 := hb b2 (by simp)
    have hrest : ∀ b ∈ rest, b < 256 := fun b hbm => hb b (by simp [hbm])
    have hrec := b64urlEncode_no_dot rest hrest
    intro h
    have h' : '.' ∈ b64Char (b0 / 4) :: b64Char (b0 % 4 * 16 + b1 / 16) ::
        b64Char (b1 % 16 * 4 + b2 / 64) :: b64Char (b2 % 64) :: b64urlEncode rest := h
    simp only [List.mem_cons] at h'
    rcases h' with h' | h' | h' | h' | h'
    · exact b64Char_ne_dot _ (by omega) h'.symm
    · exact b64Char_ne_dot _ (by omega) h'.symm
    · exact b64Char_ne_dot _ (by omega) h'.symm
    · exact b64Char_ne_dot _ (by omega) h'.symm
    · exact hrec h'
termination_by bytes.length

/-! ## UTF-8 round-trip -/

theorem utf8DecodeOne_ascii {n : Nat} (h : n < 128) (bs : List Nat) :
    utf8DecodeOne n bs = some (n, bs) := by
  unfold utf8DecodeOne
  rw [if_pos h]

set_option maxRecDepth 8192 in
theorem utf8DecodeOne_two {n : Nat} (h1 : 128 ≤ n) (h2 : n < 2048) (bs : List Nat) :
    utf8DecodeOne (192 + n / 64) ((128 + n % 64) :: bs) = some (n, bs) := by
  unfold utf8DecodeOne
  rw [if_neg (by omega), if_neg (by omega), if_pos (by omega)]
  split
  next b1 rest1 heq =>
    injection heq with e1 e2
    subst e1
    subst e2
    rw [if_pos (show isCont (128 + n % 64) = true by simp [isCont]; omega)]
    simp only []
    rw [if_neg (by omega)]
    congr 1
    simp only [Prod.mk.injEq]
    exact ⟨by omega, trivial⟩
  next heq => exact absurd heq (by simp)

set_option maxRecDepth 8192 in
theorem utf8DecodeOne_three {n : Nat} (h1 : 2048 ≤ n) (h2 : n < 65536)
    (h3 : n < 55296 ∨ 57344 ≤ n) (bs : List Nat) :
    utf8DecodeOne (224 + n / 4096) ((128 + n / 64 % 64) :: (128 + n % 64) :: bs) =
      some (n, bs) := by
  unfold utf8DecodeOne
  rw [if_neg (by omega), if_neg (by omega), if_neg (by omega), if_pos (by omega)]
  split
  next b1 b2 rest2 heq =>
    injection heq with e1 heq2
    injection heq2 with e2 e3
    subst e1
    subst e2
    subst e3
    rw [if_pos (show (isCont (128 + n / 64 % 64) && isCont (128 + n % 64)) = true by
      simp [isCont]; omega)]
    simp only []
    rw [if_neg (by omega), if_neg (by simp; omega)]
    congr 1
    simp only [Prod.mk.injEq]
    exact ⟨by omega, trivial⟩
  next heq => exact absurd heq (by simp)

set_option maxRecDepth 8192 in
theorem utf8DecodeOne_four {n : Nat} (h1 : 65536 ≤ n) (h2 : n < 1114112) (bs : List Nat) :
    utf8DecodeOne (240 + n / 262144)
      ((128 + n / 4096 % 64) :: (128 + n / 64 % 64) :: (128 + n % 64) :: bs) =
      some (n, bs) := by
  unfold utf8DecodeOne
  rw [if_neg (by omega), if_neg (by omega), if_neg (by omega), if_neg (by omega),
    if_pos (by omega)]
  split
  next b1 b2 b3 rest3 heq =>
    injection heq with e1 heq2
    injection heq2 with e2 heq3
    injection heq3 with e3 e4
    subst e1
    subst e2
    subst e3
    subst e4
    rw [if_pos (show (isCont (128 + n / 4096 % 64) && isCont (128 + n / 64 % 64) &&
        isCont (128 + n % 64)) = true by simp [isCont]; omega)]
    simp only []
    rw [if_neg (by omega), if_neg (by omega)]
    congr 1
    simp only [Prod.mk.injEq]
    exact ⟨by omega, trivial⟩
  next heq => exact absurd heq (by simp)

theorem utf8Decode_cons {b : Nat} {rest : List Nat} {n : Nat} {r : List Nat}
    (h : utf8DecodeOne b rest = some (n, r)) :
    utf8Decode (b :: rest) = match utf8Decode r with
      | some cs => some (Char.ofNat n :: cs)
      | none => none := by
  rw [utf8Decode.eq_2]
  split
  next n' r' heq =>
    rw [h] at heq
    injection heq with h1
    injection h1 with e1 e2
    subst e1
    subst e2
    rfl
  next heq =>
    rw [h] at heq
    cases heq

theorem utf8Decode_encodeChar (c : Char) (bs : List Nat) :
    utf8Decode (utf8EncodeChar c ++ bs) = match utf8Decode bs with
      | some cs => some (c :: cs)
      | none => none := by
  have hv := char_toNat_valid c
  unfold utf8EncodeChar
  split_ifs with hA hB hC
  · simp only [List.cons_append, List.nil_append]
    rw [utf8Decode_cons (utf8DecodeOne_ascii hA bs), Char.ofNat_toNat]
  · simp only [List.cons_append, List.nil_append]
    rw [utf8Decode_cons (utf8DecodeOne_two (by omega) hB bs), Char.ofNat_toNat]
  · simp only [List.cons_append, List.nil_append]
    rw [utf8Decode_cons (utf8DecodeOne_three (by omega) hC (by omega) bs),
      Char.ofNat_toNat]
  · simp only [List.cons_append, List.nil_append]
    rw [utf8Decode_cons (utf8DecodeOne_four (by omega) (by omega) bs), Char.ofNat_toNat]

theorem utf8Decode_encode (s : List Char) : utf8Decode (utf8Encode s) = some s := by
  induction s with
  | nil =>
    rw [show utf8Encode [] = [] from rfl]
    exact utf8Decode.eq_1
  | cons c t ih =>
    show utf8Decode (utf8EncodeChar c ++ utf8Encode t) = some (c :: t)
    rw [utf8Decode_encodeChar, ih]

theorem utf8EncodeChar_lt_256 (c : Char) : ∀ b ∈ utf8EncodeChar c, b < 256 := by
  have hv := char_toNat_valid c
  unfold utf8EncodeChar
  split_ifs with hA hB hC <;>
    (intro b hb
     simp only [List.mem_cons, List.not_mem_nil, or_false] at hb) <;>
    (rcases hb with hb | hb | hb | hb | hb <;> omega)

theorem utf8Encode_lt_256 (s : List Char) : ∀ b ∈ utf8Encode s, b < 256 := by
  induction s with
  | nil => intro b hb; cases hb
  | cons c t ih =>
    intro b hb
    rcases List.mem_append.1 hb with hb | hb
    · exact utf8EncodeChar_lt_256 c b hb
    · exact ih b hb

/-! ## splitLastDot -/

theorem splitLastDot_none {l : List Char} (h : '.' ∉ l) : splitLastDot l = none := by
  induction l with
  | nil => rfl
  | cons c t ih =>
    have hc : c ≠ '.' := fun he => h (by simp [he])
    have ht : '.' ∉ t := fun hm => h (by simp [hm])
    rw [splitLastDot, ih ht, if_neg hc]

theorem splitLastDot_append {xs ys : List Char} (h : '.' ∉ ys) :
    splitLastDot (xs ++ '.' :: ys) = some (xs, ys) := by
  induction xs with
  | nil =>
    show splitLastDot ('.' :: ys) = some ([], ys)
    rw [splitLastDot, splitLastDot_none h, if_pos rfl]
  | cons c t ih =>
    show splitLastDot (c :: (t ++ '.' :: ys)) = some (c :: t, ys)
    rw [splitLastDot, ih]

theorem splitLastDot_ne_none {l : List Char} (h : '.' ∈ l) : splitLastDot l ≠ none := by
  induction l with
  | nil => cases h
  | cons d u ih =>
    rw [splitLastDot]
    cases hs : splitLastDot u with
    | some p => simp
    | none =>
      rcases List.mem_cons.1 h with hd | hd
      · rw [if_pos hd.symm]
        simp
      · exact absurd hs (ih hd)

theorem splitLastDot_sound {l a b : List Char} (h : splitLastDot l = some (a, b)) :
    l = a ++ '.' :: b ∧ '.' ∉ b := by
  induction l generalizing a b with
  | nil => cases h
  | cons c t ih =>
    rw [splitLastDot] at h
    cases hs : splitLastDot t with
    | some p =>
      rw [hs] at h
      obtain ⟨a', b'⟩ := p
      injection h with h1
      injection h1 with e1 e2
      obtain ⟨ht, hb⟩ := ih hs
      subst e2
      constructor
      · rw [← e1, ht]
        rfl
      · exact hb
    | none =>
      rw [hs] at h
      by_cases hc : c = '.'
      · rw [if_pos hc] at h
        injection h with h1
        injection h1 with e1 e2
        subst e1
        subst e2
        subst hc
        exact ⟨rfl, fun hm => splitLastDot_ne_none hm hs⟩
      · rw [if_neg hc] at h
        cases h

/-! ## Canonical payload parse round-trip -/

theorem stopsDigits_cons {c : Char} (h : isDigitChar c = false) (l : List Char) :
    stopsDigits (c :: l) := by
  intro c' hc'
  simp only [List.head?] at hc'
  injection hc' with e
  rw [e] at h
  exact h

theorem keyStr_emit (key s rest : List Char) :
    keyStr key (key ++ (escapeChars s ++ '"' :: rest)) = some (s, rest) := by
  unfold keyStr
  rw [expectLit_append]
  exact readStr_escape s rest

theorem keyInt_emit (key : List Char) (i : Int) (rest : List Char) (h : stopsDigits rest) :
    keyInt key (key ++ (jsonIntLit i ++ rest)) = some (i, rest) := by
  unfold keyInt
  rw [expectLit_append]
  exact readInt_jsonIntLit i rest h

theorem keyInt_emit_endpoint (i : Int) (x : List Char) :
    keyInt kCreatedAt (kCreatedAt ++ (jsonIntLit i ++ (kEndpoint ++ x))) =
      some (i, kEndpoint ++ x) :=
  keyInt_emit _ _ _ (stopsDigits_cons (by decide) _)

theorem keyInt_emit_payAmt (i : Int) (x : List Char) :
    keyInt kExpiresAt (kExpiresAt ++ (jsonIntLit i ++ (kPayAmt ++ x))) =
      some (i, kPayAmt ++ x) :=
  keyInt_emit _ _ _ (stopsDigits_cons (by decide) _)

theorem escapeChars_scopeStr (sc : Scope) : escapeChars (Scope.str sc) = Scope.str sc := by
  cases sc <;> rfl

theorem keyStr_emit_scope (key : List Char) (sc : Scope) (rest : List Char) :
    keyStr key (key ++ (Scope.str sc ++ '"' :: rest)) = some (Scope.str sc, rest) := by
  have h := keyStr_emit key (Scope.str sc) rest
  rwa [escapeChars_scopeStr] at h

theorem parsePayloadTail_emit (sc : Scope) (ca ex : Int) (ep pa pt sid ver wal : List Char) :
    parsePayloadTail sc ca ex ep pa pt
      (kSessionId ++ (escapeChars sid ++ '"' :: (
       kVersion ++ (escapeChars ver ++ '"' :: (
       kWallet ++ (escapeChars wal ++ '"' :: ['}'])))))) =
      some { version := String.mk ver, sessionId := String.mk sid,
             walletAddress := String.mk wal, endpoint := String.mk ep,
             scope := sc, createdAt := ca, expiresAt := ex,
             paymentTxHash := String.mk pt, paymentAmount := String.mk pa } := by
  simp only [parsePayloadTail, keyStr_emit, pstep, if_true]

theorem parsePayloadMid_emit (ca ex : Int) (ep pa pt : List Char) (sc : Scope)
    (tail : List Char) :
    parsePayloadMid ca ex ep
      (kPayAmt ++ (escapeChars pa ++ '"' :: (
       kPayTx ++ (escapeChars pt ++ '"' :: (
       kScope ++ (Scope.str sc ++ '"' :: tail)))))) =
      parsePayloadTail sc ca ex ep pa pt tail := by
  cases sc
  · simp only [parsePayloadMid, keyStr_emit, keyStr_emit_scope, pstep]
    rw [if_pos (by decide : Scope.pfx.str = kPrefixVal)]
  · simp only [parsePayloadMid, keyStr_emit, keyStr_emit_scope, pstep]
    rw [if_neg (by decide : ¬ (Scope.exact.str = kPrefixVal)),
      if_pos (by decide : Scope.exact.str = kExactVal)]

theorem parsePayload_canonicalise (p : SessionTokenPayload) :
    parsePayloadChars (canonicalise p) = some p := by
  simp only [parsePayloadChars, canonicalise, pstep, keyStr_emit, keyInt_emit_endpoint,
    keyInt_emit_payAmt, parsePayloadMid_emit, parsePayloadTail_emit]

/-! ## Token round-trip (`decodeSessionToken` of `encodeSessionToken`) -/

theorem decodeEncode_aux (p : SessionTokenPayload) (sig : String)
    (h : '.' ∉ sig.data) :
    decodeSessionToken (encodeSessionToken p sig) = some (p, sig) := by
  obtain ⟨sigData⟩ := sig
  simp only [decodeSessionToken, encodeSessionToken, decodePipeline, pstep, ostep,
    splitLastDot_append h,
    b64urlDecode_encode _ (utf8Encode_lt_256 (canonicalise p)),
    utf8Decode_encode, parsePayload_canonicalise]

/-- C5: the token codec round-trips.  For every payload `p` and every
signature string without a `.` (hex signatures, as the spec notes),
decoding the encoded token returns exactly `p` — every field equal — and
the very signature string the signer produced.  The record's `label` is
not an input of the codec at all, so the result is independent of it,
non-ASCII labels included. -/
theorem c5_token_roundtrip (p : SessionTokenPayload) (sig : String)
    (h : '.' ∉ sig.data) :
    decodeSessionToken (encodeSessionToken p sig) = some (p, sig) :=
  decodeEncode_aux p sig h

/-! ## Concrete fixtures shared by witnesses and counterexamples -/

/-- An active `prefix`-scope record, as the store would hold it. -/
def sampleRecord : SessionRecord :=
  { sessionId := "a", endpoint := "https://e.x/v1", scope := .pfx,
    walletAddress := "w", createdAt := 0, expiresAt := 100, paymentTxHash := "t",
    paymentAmount := "1", paymentToken := "k", paymentRecipient := "r",
    sessionToken := "tok", signature := "s", label := none, callCount := 0,
    lastUsedAt := 0 }

/-- An active `exact`-scope record for the same endpoint. -/
def exactRecord : SessionRecord := { sampleRecord with sessionId := "b", scope := .exact }

/-- Creation options with a signer that always succeeds. -/
def sampleOpts : CreateSessionOptions :=
  { endpoint := "e", scope := none, ttlSeconds := some 100, label := none,
    paymentTxHash := "t", paymentAmount := 1, paymentToken := "k",
    paymentRecipient := "r", walletAddress := "w",
    signMessage := fun _ => .ok "0xsig" }

/-- A small payload for codec witnesses. -/
def samplePayload : SessionTokenPayload :=
  { version := "clawpay/1.1", sessionId := "id1", walletAddress := "0xW",
    endpoint := "https://e.x/v1", scope := .pfx, createdAt := 1000,
    expiresAt := 4600, paymentTxHash := "0xT", paymentAmount := "123" }

/-! ## Claims -/

/-- C2, counterexample: `createSession` does not clamp a supplied TTL.
With `ttlSeconds = 10` the record gets `expiresAt = createdAt + 10`,
whereas the claimed `clamp(10, 60, 2592000) = 60` would give
`createdAt + 60`. -/
theorem c2_ttl_clamp_counterexample :
    ((createSession { sampleOpts with ttlSeconds := some 10 } "c" 1000 none []).1.map
      (fun r => (r.createdAt, r.expiresAt))) = .ok (1000, 1010) ∧
    clampTtlSpec 10 = 60 ∧ ((1010 : Int) ≠ 1000 + clampTtlSpec 10) := by
  refine ⟨by rfl, by decide, by decide⟩

/-- C2, amended: the record returned by `createSession` satisfies
`createdAt = now` and `expiresAt = createdAt + ttl` where `ttl` is
`opts.ttlSeconds` exactly as supplied (no clamping), defaulting to the
environment-derived TTL; the claimed clamp formula holds exactly when the
supplied TTL already lies within `[60, 2592000]` — the range the tool's
input schema enforces by rejection. -/
theorem c2_expiresAt_formula (opts : CreateSessionOptions) (freshId : String)
    (now : Int) (env : Option String) (store : Store) (r : SessionRecord) (s2 : Store)
    (h : createSession opts freshId now env store = (.ok r, s2)) :
    r.createdAt = now ∧
    r.expiresAt = now + (opts.ttlSeconds.getD (parseTtlFromEnv env)) ∧
    (∀ t, opts.ttlSeconds = some t → 60 ≤ t → t ≤ 2592000 →
      r.expiresAt = r.createdAt + clampTtlSpec t) := by
  unfold createSession at h
  split at h
  next e heq => cases h
  next sig heq =>
    injection h with h1 h2
    injection h1 with hr
    subst hr
    refine ⟨rfl, rfl, ?_⟩
    intro t ht h60 hmax
    show (buildPayload opts freshId now env).expiresAt = now + clampTtlSpec t
    unfold buildPayload clampTtlSpec
    rw [ht]
    show now + t = now + max 60 (min t 2592000)
    omega

/-- The record minted by the concrete witness run of `createSession`. -/
def c2rec : SessionRecord :=
  match (createSession sampleOpts "c" 1000 none []).1 with
  | .ok r => r
  | .error _ => sampleRecord

/-- C2 witness: at `ttlSeconds = 100`, `now = 1000`, the amended formula
evaluates as stated. -/
theorem c2_expiresAt_formula_witness :
    c2rec.createdAt = 1000 ∧ c2rec.expiresAt = 1000 + 100 := by
  have h : createSession sampleOpts "c" 1000 none [] =
      (.ok c2rec, (createSession sampleOpts "c" 1000 none []).2) := by rfl
  obtain ⟨h1, h2, _⟩ := c2_expiresAt_formula sampleOpts "c" 1000 none [] c2rec _ h
  exact ⟨h1, by rw [h2]; rfl⟩

/-- C3: `findSessionForUrl` matches a sibling path that merely shares a
string prefix — `https://e.x/v1extra` is matched by the `prefix` session
for `https://e.x/v1` — while the repository's own coverage check
`isUrlCoveredBySession` (path-boundary aware, as the documented meaning
of `prefix` scope requires) rejects the same URL and accepts a genuine
sub-path. -/
theorem c3_sibling_prefix_match_bug :
    findSessionForUrl [sampleRecord] "https://e.x/v1extra" 0 = some sampleRecord ∧
    isUrlCoveredBySession "https://e.x/v1extra" sampleRecord.endpoint sampleRecord.scope
      = false ∧
    isUrlCoveredBySession "https://e.x/v1/p" sampleRecord.endpoint sampleRecord.scope
      = true := by
  refine ⟨by rfl, by rfl, by rfl⟩

/-- C10: when the injected signer rejects, `createSession` propagates that
failure and returns the store unchanged — signing is awaited before the
insertion and the prune pass, so neither happens. -/
theorem c10_sign_failure_no_insert (opts : CreateSessionOptions) (freshId : String)
    (now : Int) (env : Option String) (store : Store) (e : String)
    (h : opts.signMessage (String.mk (canonicalise (buildPayload opts freshId now env)))
      = .error e) :
    createSession opts freshId now env store = (.error e, store) := by
  unfold createSession
  split
  next e2 heq =>
    rw [h] at heq
    injection heq with he
    subst he
    rfl
  next sig heq =>
    rw [h] at heq
    cases heq

/-- Options whose signer always rejects. -/
def failingOpts : CreateSessionOptions :=
  { sampleOpts with signMessage := fun _ => .error "boom" }

/-- C10 witness: a failing signer leaves the concrete store untouched. -/
theorem c10_sign_failure_no_insert_witness :
    createSession failingOpts "c" 5 none [sampleRecord] = (.error "boom", [sampleRecord]) :=
  c10_sign_failure_no_insert failingOpts "c" 5 none [sampleRecord] "boom" rfl

/-- C7: when the initial request completed without any payment firing
(`payment = none`), `x402_session_start` creates no session — the store is
returned unchanged — and the result is the `noSessionNeeded` reply. -/
theorem c7_no_payment_no_session (input : StartInput) (walletAddress : String)
    (signMessage : String → Except String String) (freshId : String) (now : Int)
    (env : Option String) (resp : HttpResp) (store : Store) :
    handleX402SessionStart input walletAddress signMessage freshId now env none resp store
      = (.noSessionNeeded resp.status resp.body, store) := rfl

/-- C5 witness: the round-trip at a concrete payload and signature. -/
theorem c5_token_roundtrip_witness :
    ('.' ∉ ("0xsig" : String).data) ∧
    decodeSessionToken (encodeSessionToken samplePayload "0xsig")
      = some (samplePayload, "0xsig") :=
  ⟨by decide, c5_token_roundtrip samplePayload "0xsig" (by decide)⟩

/-- C1, counterexample: in `x402_session_fetch`, a use *is* recorded even
when the server answers 402 — `recordSessionCall` runs before the 402
check — so `callCount` rises from 0 to 1 and `lastUsedAt` is set to the
current time although the distinct rejection failure is reported. -/
theorem c1_record_use_on_402_counterexample :
    sampleRecord.callCount = 0 ∧ sampleRecord.lastUsedAt = 0 ∧
    (handleX402SessionFetch ⟨"a", "https://e.x/v1/p"⟩ 7 ⟨402, "pay"⟩ [sampleRecord]).1
      = .serverRejectedSession "pay" ∧
    (handleX402SessionFetch ⟨"a", "https://e.x/v1/p"⟩ 7 ⟨402, "pay"⟩ [sampleRecord]).2
      = [{ sampleRecord with callCount := 1, lastUsedAt := 7 }] :=
  ⟨rfl, rfl, rfl, rfl⟩

/-- C1, amended: in the `x402_pay` auto-session path a use is recorded
exactly when the response status is not 402 (on 402 the store is
untouched and control falls through to the payment flow); in
`x402_session_fetch`, however, a use is recorded on every completed
request regardless of status — including 402, where the distinct
"session not recognised" failure is still reported. -/
theorem c1_session_use_accounting (store : Store) (now : Int) (resp : HttpResp) :
    (∀ (inp : PayInput) (s : SessionRecord), inp.skipSessionCheck = false →
      findSessionForUrl store inp.url now = some s →
      (resp.status = 402 → handleX402Pay inp now resp store = (.paidFlow, store)) ∧
      (resp.status ≠ 402 → handleX402Pay inp now resp store =
        (.sessionUsed resp.status resp.body,
         recordSessionCall store s.sessionId now))) ∧
    (∀ (inp : FetchInput) (s : SessionRecord),
      lookupSession store inp.sessionId now = .found s false →
      isUrlCoveredBySession inp.url s.endpoint s.scope = true →
      handleX402SessionFetch inp now resp store =
        ((if resp.status = 402 then FetchOutcome.serverRejectedSession resp.body
          else FetchOutcome.ok resp.status resp.body),
         recordSessionCall store inp.sessionId now)) := by
  constructor
  · intro inp s hskip hfind
    unfold handleX402Pay
    rw [hskip]
    simp only [Bool.false_eq_true, if_false]
    split
    next heq =>
      rw [hfind] at heq
      cases heq
    next s2 heq =>
      rw [hfind] at heq
      injection heq with hs
      subst hs
      constructor
      · intro h402
        rw [if_neg (by simp [h402])]
      · intro h402
        rw [if_pos (by simp [h402])]
  · intro inp s hl hcov
    unfold handleX402SessionFetch
    split
    next heq =>
      rw [hl] at heq
      cases heq
    next s2 e2 heq =>
      rw [hl] at heq
      injection heq with e1 e2
      subst e1
      subst e2
      rw [if_neg (by simp), if_neg (by simp [hcov])]
      by_cases h402 : resp.status = 402 <;> simp [h402]

/-- C1 witness: the amended accounting at a concrete store — the pay path
leaves the store unchanged on 402, and the fetch path records the use. -/
theorem c1_session_use_accounting_witness :
    handleX402Pay ⟨"https://e.x/v1/p", false⟩ 7 ⟨402, "pay"⟩ [sampleRecord]
      = (.paidFlow, [sampleRecord]) ∧
    handleX402SessionFetch ⟨"a", "https://e.x/v1/p"⟩ 7 ⟨200, "ok"⟩ [sampleRecord]
      = (.ok 200 "ok", recordSessionCall [sampleRecord] "a" 7) := by
  constructor
  · exact ((c1_session_use_accounting [sampleRecord] 7 ⟨402, "pay"⟩).1
      ⟨"https://e.x/v1/p", false⟩ sampleRecord rfl (by rfl)).1 rfl
  · have h := (c1_session_use_accounting [sampleRecord] 7 ⟨200, "ok"⟩).2
      ⟨"a", "https://e.x/v1/p"⟩ sampleRecord (by rfl) (by rfl)
    simpa using h

/-- C8: `x402_session_fetch` validates in the order session-exists →
not-expired → URL-covered, and a coverage failure (in particular any URL
other than the single covered URL of an `exact`-scope session) yields the
scope-mismatch error with the store untouched and a result that does not
depend on the HTTP oracle — no request is attempted. -/
theorem c8_fetch_validation_order (inp : FetchInput) (now : Int) (store : Store) :
    (lookupSession store inp.sessionId now = .notFound →
      ∀ resp, handleX402SessionFetch inp now resp store = (.notFound, store)) ∧
    (∀ s, lookupSession store inp.sessionId now = .found s true →
      ∀ resp, handleX402SessionFetch inp now resp store = (.expired, store)) ∧
    (∀ s, lookupSession store inp.sessionId now = .found s false →
      isUrlCoveredBySession inp.url s.endpoint s.scope = false →
      ∀ resp, handleX402SessionFetch inp now resp store = (.scopeMismatch, store)) := by
  refine ⟨?_, ?_, ?_⟩
  · intro hnf resp
    unfold handleX402SessionFetch
    split
    next heq => rfl
    next s2 e2 heq =>
      rw [hnf] at heq
      cases heq
  · intro s hl resp
    unfold handleX402SessionFetch
    split
    next heq =>
      rw [hl] at heq
      cases heq
    next s2 e2 heq =>
      rw [hl] at heq
      injection heq with e1 e2
      subst e1
      subst e2
      rw [if_pos rfl]
  · intro s hl hcov resp
    unfold handleX402SessionFetch
    split
    next heq =>
      rw [hl] at heq
      cases heq
    next s2 e2 heq =>
      rw [hl] at heq
      injection heq with e1 e2
      subst e1
      subst e2
      rw [if_neg (by simp), if_pos (by simp [hcov])]

/-- C8 witness: a URL outside an `exact`-scope session's single covered
URL fails with the scope mismatch, identically for two different HTTP
oracles. -/
theorem c8_fetch_validation_order_witness :
    handleX402SessionFetch ⟨"b", "https://e.x/v1/other"⟩ 0 ⟨200, "x"⟩ [exactRecord]
      = (.scopeMismatch, [exactRecord]) ∧
    handleX402SessionFetch ⟨"b", "https://e.x/v1/other"⟩ 0 ⟨402, "y"⟩ [exactRecord]
      = (.scopeMismatch, [exactRecord]) :=
  ⟨(c8_fetch_validation_order ⟨"b", "https://e.x/v1/other"⟩ 0 [exactRecord]).2.2
      exactRecord (by rfl) (by rfl) ⟨200, "x"⟩,
   (c8_fetch_validation_order ⟨"b", "https://e.x/v1/other"⟩ 0 [exactRecord]).2.2
      exactRecord (by rfl) (by rfl) ⟨402, "y"⟩⟩

/-- C6: whenever the store holds an active `exact`-scope session whose
endpoint equals the URL byte-for-byte (uniquely so), `findSessionForUrl`
returns it — whatever the iteration order of the store and whatever
`prefix`-scope sessions also cover the URL. -/
theorem c6_exact_scope_priority (store : Store) (url : String) (now : Int)
    (s : SessionRecord) (hmem : s ∈ store) (hact : s.expiresAt > now)
    (hscope : s.scope = Scope.exact) (hep : s.endpoint = url)
    (huniq : ∀ s2 ∈ store, s2.expiresAt > now → s2.scope = Scope.exact →
      s2.endpoint = url → s2 = s) :
    findSessionForUrl store url now = some s := by
  unfold findSessionForUrl
  have hmemA : s ∈ store.filter (fun r => r.expiresAt > now) :=
    List.mem_filter.2 ⟨hmem, by simp [hact]⟩
  have hex : ((store.filter (fun r => r.expiresAt > now)).find?
      (fun r => r.scope = Scope.exact && r.endpoint = url)).isSome = true :=
    List.find?_isSome.2 ⟨s, hmemA, by simp [hscope, hep]⟩
  obtain ⟨a, ha⟩ := Option.isSome_iff_exists.1 hex
  rw [ha]
  show some a = some s
  have hpa := List.find?_some ha
  have hma := List.mem_of_find?_eq_some ha
  obtain ⟨hmas, hacta⟩ := List.mem_filter.1 hma
  simp only [Bool.and_eq_true, decide_eq_true_eq] at hpa hacta
  rw [huniq a hmas hacta hpa.1 hpa.2]

/-- C6 witness: with the `prefix` record first in iteration order and the
`exact` record second, the `exact` one is still returned. -/
theorem c6_exact_scope_priority_witness :
    findSessionForUrl [sampleRecord, exactRecord] "https://e.x/v1" 0 = some exactRecord :=
  c6_exact_scope_priority [sampleRecord, exactRecord] "https://e.x/v1" 0 exactRecord
    (by simp) (by decide) (by decide) (by decide) (by decide)

/-- C9: `decodeSessionToken` is a total function into `Option`: a token
without any `.` decodes to `none`, and every successful decode comes from
splitting the token at its *last* dot — the returned signature is the
(dot-free) text after that dot, and the payload is the
base64url/UTF-8/JSON pipeline applied to the text before it. -/
theorem c9_decode_total_split (t : String) :
    ('.' ∉ t.data → decodeSessionToken t = none) ∧
    (∀ p sig, decodeSessionToken t = some (p, sig) →
      ∃ pre, t.data = pre ++ '.' :: sig.data ∧ '.' ∉ sig.data ∧
        decodePipeline pre = some p) := by
  constructor
  · intro h
    unfold decodeSessionToken
    rw [splitLastDot_none h]
    rfl
  · intro p sig h
    unfold decodeSessionToken at h
    cases hs : splitLastDot t.data with
    | none =>
      rw [hs] at h
      cases h
    | some pr =>
      obtain ⟨pre, sd⟩ := pr
      rw [hs] at h
      have h2 : ostep (decodePipeline pre) (fun q => some (q, String.mk sd))
          = some (p, sig) := h
      cases hd : decodePipeline pre with
      | none =>
        rw [hd] at h2
        cases h2
      | some q =>
        rw [hd] at h2
        injection h2 with h1
        injection h1 with e1 e2
        obtain ⟨ht, hb⟩ := splitLastDot_sound hs
        subst e1
        refine ⟨pre, ?_, ?_, hd⟩
        · rw [← e2]
          exact ht
        · rw [← e2]
          exact hb

/-- C9 witness: a dot-free string decodes to `none`, and the concrete
encoded token decodes by splitting at its last dot. -/
theorem c9_decode_total_split_witness :
    decodeSessionToken "nodotstring" = none ∧
    (∃ pre, (encodeSessionToken samplePayload "0xsig").data
        = pre ++ '.' :: ("0xsig" : String).data ∧
      '.' ∉ ("0xsig" : String).data ∧ decodePipeline pre = some samplePayload) :=
  ⟨(c9_decode_total_split "nodotstring").1 (by decide),
   (c9_decode_total_split (encodeSessionToken samplePayload "0xsig")).2
     samplePayload "0xsig" (decodeEncode_aux samplePayload "0xsig" (by decide))⟩

/-! ## C4: permanence of `endSession` under later store operations -/

/-- The store operations that can run after an `endSession`, with their
oracle inputs (`createOp` carries the fresh id `randomUUID` returned). -/
inductive SessionOp where
  | createOp (opts : CreateSessionOptions) (freshId : String) (now : Int) (env : Option String)
  | recordOp (id : String) (now : Int)
  | endOp (id : String)
  | listOp (now : Int)
  | lookupOp (id : String) (now : Int)

/-- The store after one operation (lookups read only). -/
def applyOp (store : Store) : SessionOp → Store
  | .createOp opts fid now env => (createSession opts fid now env store).2
  | .recordOp id now => recordSessionCall store id now
  | .endOp id => (endSession store id).2
  | .listOp now => (listActiveSessions store now).2
  | .lookupOp _ _ => store

/-- The fresh id a `createOp` would mint. -/
def opFreshId : SessionOp → Option String
  | .createOp _ fid _ _ => some fid
  | _ => none

/-- Invariant after ending `id`: every record still carrying that id has
`expiresAt = 0`. -/
def EndedInv (id : String) (store : Store) : Prop :=
  ∀ r ∈ store, r.sessionId = id → r.expiresAt = 0

theorem endSession_inv (store : Store) (id : String) :
    EndedInv id (endSession store id).2 := by
  unfold endSession
  split_ifs with hany
  · intro r hr hid
    simp only [List.mem_map] at hr
    obtain ⟨r0, hr0, heq⟩ := hr
    by_cases h : r0.sessionId = id
    · rw [← heq]
      simp [h]
    · rw [← heq] at hid
      simp only [h, if_false] at hid
  · intro r hr hid
    exact absurd (List.any_eq_true.2 ⟨r, hr, by simp [hid]⟩) hany

theorem createSession_store_mem (opts : CreateSessionOptions) (fid : String) (now : Int)
    (env : Option String) (store : Store) :
    ∀ r ∈ (createSession opts fid now env store).2, r ∈ store ∨ r.sessionId = fid := by
  unfold createSession
  split
  · intro r hr
    exact Or.inl hr
  next sig heq =>
    intro r hr
    simp only [pruneExpired] at hr
    obtain ⟨hmem, _⟩ := List.mem_filter.1 hr
    rcases List.mem_append.1 hmem with hmem | hmem
    · exact Or.inl hmem
    · right
      simp only [List.mem_singleton] at hmem
      rw [hmem]

theorem applyOp_inv {id : String} {store : Store} (op : SessionOp)
    (h : EndedInv id store) (hop : opFreshId op ≠ some id) :
    EndedInv id (applyOp store op) := by
  cases op with
  | createOp opts fid now env =>
    intro r hr hid
    rcases createSession_store_mem opts fid now env store r hr with hmem | hfid
    · exact h r hmem hid
    · exact (hop (by
        rw [show opFreshId (SessionOp.createOp opts fid now env) = some fid from rfl,
          ← hfid, hid])).elim
  | recordOp id2 now =>
    intro r hr hid
    simp only [applyOp, recordSessionCall, List.mem_map] at hr
    obtain ⟨r0, hr0, heq⟩ := hr
    by_cases h2 : r0.sessionId = id2
    · rw [← heq] at hid ⊢
      simp only [h2, if_true] at hid ⊢
      exact h r0 hr0 (by rw [h2]; exact hid)
    · rw [← heq] at hid ⊢
      simp only [h2, if_false] at hid ⊢
      exact h r0 hr0 hid
  | endOp id2 =>
    intro r hr hid
    show r.expiresAt = 0
    have : (endSession store id2).2 = if store.any (fun s => s.sessionId = id2) then
        store.map (fun s => if s.sessionId = id2 then { s with expiresAt := 0 } else s)
      else store := by
      unfold endSession
      split_ifs <;> rfl
    rw [show applyOp store (.endOp id2) = (endSession store id2).2 from rfl, this] at hr
    split_ifs at hr with hany
    · simp only [List.mem_map] at hr
      obtain ⟨r0, hr0, heq⟩ := hr
      by_cases h2 : r0.sessionId = id2
      · rw [← heq]
        simp [h2]
      · rw [← heq] at hid ⊢
        simp only [h2, if_false] at hid ⊢
        exact h r0 hr0 hid
    · exact h r hr hid
  | listOp now =>
    intro r hr hid
    simp only [applyOp, listActiveSessions, pruneExpired] at hr
    exact h r (List.mem_filter.1 hr).1 hid
  | lookupOp id2 now =>
    exact h

theorem foldl_applyOp_inv {id : String} (ops : List SessionOp) (store : Store)
    (h : EndedInv id store) (hops : ∀ op ∈ ops, opFreshId op ≠ some id) :
    EndedInv id (ops.foldl applyOp store) := by
  induction ops generalizing store with
  | nil => exact h
  | cons op rest ih =>
    exact ih (applyOp store op)
      (applyOp_inv op h (hops op (by simp)))
      (fun o ho => hops o (by simp [ho]))

theorem lookupSession_found {store : Store} {id : String} {s : SessionRecord} (now : Int)
    (h : store.find? (fun r => r.sessionId = id) = some s) :
    lookupSession store id now = .found s (decide (now ≥ s.expiresAt)) := by
  unfold lookupSession
  rw [h]

theorem lookupSession_inv {store : Store} {id : String} {s : SessionRecord} {e : Bool}
    {now : Int} (h : lookupSession store id now = .found s e) :
    store.find? (fun r => r.sessionId = id) = some s ∧ e = decide (now ≥ s.expiresAt) := by
  unfold lookupSession at h
  cases hf : store.find? (fun r => r.sessionId = id) with
  | none =>
    rw [hf] at h
    cases h
  | some s2 =>
    rw [hf] at h
    injection h with e1 e2
    subst e1
    subst e2
    exact ⟨rfl, rfl⟩

/-- C4, counterexample: after `End` succeeds, an intervening `Create`
triggers the prune sweep, which deletes the force-expired record — a
subsequent `Lookup` returns `found = false`, not `found = true` with
`expired = true` as claimed. -/
theorem c4_lookup_after_create_counterexample :
    (endSession [sampleRecord] "a").1 = true ∧
    lookupSession (endSession [sampleRecord] "a").2 "a" 50 =
      .found { sampleRecord with expiresAt := 0 } true ∧
    lookupSession ((createSession sampleOpts "b" 50 none
      (endSession [sampleRecord] "a").2).2) "a" 50 = .notFound :=
  ⟨rfl, rfl, by rfl⟩

/-- C4, amended: once `End(id)` has succeeded, the session stays dead for
every subsequent operation sequence (creates with fresh ids, call
recording, further ends, listings): immediately after the end, `Lookup`
still finds the record and reports it expired; after any sequence of
operations, `Lookup` never reports the id unexpired (it answers either
not-found — the prune sweep of `Create`/`ListActive` deletes the record —
or found-and-expired), and `ListActive` never includes the id. -/
theorem c4_end_session_permanent (store : Store) (id : String) (store1 : Store)
    (hend : endSession store id = (true, store1))
    (ops : List SessionOp) (hops : ∀ op ∈ ops, opFreshId op ≠ some id)
    (now : Int) (hnow : 0 ≤ now) :
    (∃ s, lookupSession store1 id now = .found s true) ∧
    (∀ s e, lookupSession (ops.foldl applyOp store1) id now = .found s e → e = true) ∧
    (∀ s ∈ (listActiveSessions (ops.foldl applyOp store1) now).1, s.sessionId ≠ id) := by
  have hinv1 : EndedInv id store1 := by
    have h := endSession_inv store id
    rw [hend] at h
    exact h
  have hinv2 : EndedInv id (ops.foldl applyOp store1) := foldl_applyOp_inv ops store1 hinv1 hops
  refine ⟨?_, ?_, ?_⟩
  · -- immediately after the end the record is still found, expired
    have hfound : store.any (fun s => s.sessionId = id) = true := by
      unfold endSession at hend
      split_ifs at hend with hany
      · exact hany
      · injection hend with h1 _
        cases h1
    have hstore1 : store1.any (fun s => s.sessionId = id) = true := by
      obtain ⟨x, hx, hpx⟩ := List.any_eq_true.1 hfound
      unfold endSession at hend
      split_ifs at hend with hany
      · injection hend with _ h2
        rw [← h2]
        refine List.any_eq_true.2 ⟨if x.sessionId = id then { x with expiresAt := 0 } else x,
          List.mem_map.2 ⟨x, hx, rfl⟩, ?_⟩
        simp only [decide_eq_true_eq] at hpx
        simp [hpx]
    have hsome : (store1.find? (fun r => r.sessionId = id)).isSome = true :=
      List.find?_isSome.2 (List.any_eq_true.1 hstore1)
    obtain ⟨s, hs⟩ := Option.isSome_iff_exists.1 hsome
    refine ⟨s, ?_⟩
    have hid : s.sessionId = id := by
      have := List.find?_some hs
      simpa using this
    have hz : s.expiresAt = 0 := hinv1 s (List.mem_of_find?_eq_some hs) hid
    rw [lookupSession_found now hs, hz]
    congr 1
    simp
    omega
  · intro s e hl
    obtain ⟨hf, he⟩ := lookupSession_inv hl
    have hid : s.sessionId = id := by
      have := List.find?_some hf
      simpa using this
    have hz : s.expiresAt = 0 := hinv2 s (List.mem_of_find?_eq_some hf) hid
    rw [he, hz]
    simp
    omega
  · intro s hmem hid
    simp only [listActiveSessions, pruneExpired] at hmem
    obtain ⟨hmem2, hact⟩ := List.mem_filter.1 hmem
    obtain ⟨hmem3, _⟩ := List.mem_filter.1 hmem2
    have hz : s.expiresAt = 0 := hinv2 s hmem3 hid
    simp only [decide_eq_true_eq] at hact
    omega

/-- C4 witness: the amended statement at a concrete ended session with an
intervening create and listing. -/
theorem c4_end_session_permanent_witness :
    (∃ s, lookupSession (endSession [sampleRecord] "a").2 "a" 50 = .found s true) ∧
    (∀ s e, lookupSession
        (([SessionOp.createOp sampleOpts "b" 50 none, SessionOp.listOp 50].foldl applyOp
          (endSession [sampleRecord] "a").2)) "a" 50 = .found s e → e = true) ∧
    (∀ s ∈ (listActiveSessions
        ([SessionOp.createOp sampleOpts "b" 50 none, SessionOp.listOp 50].foldl applyOp
          (endSession [sampleRecord] "a").2) 50).1, s.sessionId ≠ "a") :=
  c4_end_session_permanent [sampleRecord] "a" (endSession [sampleRecord] "a").2 (by rfl)
    [SessionOp.createOp sampleOpts "b" 50 none, SessionOp.listOp 50]
    (by
      intro op hop
      rcases List.mem_cons.1 hop with h | h
      · subst h
        simp [opFreshId]
      · rcases List.mem_cons.1 h with h2 | h2
        · subst h2
          simp [opFreshId]
        · cases h2)
    50 (by omega)

end ClawPay